import Mathlib

/-!
Verification of the win-top terminal monitor (`server/win-top.js`).

The JavaScript source is shallowly embedded: JS numbers are modelled as
exact rationals (`ℚ`), JS strings as Lean `String`, absent/null JSON
fields as `Option`, the mutable sampler state as an explicit record, and
the `Map` used for per-pid CPU history as an association list with
JS-`Map` insertion semantics.  Floating-point rounding of `Math.floor`,
`Math.ceil`, `Math.round`, `Math.log` and `toFixed` is modelled by the
corresponding exact integer/rational operations.
-/

/-! ### JS helpers (from `win-top.js` lines 61-98) -/

/-- ANSI escape prefix strings, from the `ansi` table. -/
def ansiBold : String := "\x1b[1m"

def ansiReset : String := "\x1b[0m"

def ansiRed : String := "\x1b[31m"

def ansiGreen : String := "\x1b[32m"

def ansiYellow : String := "\x1b[33m"

def ansiCyan : String := "\x1b[36m"

def ansiDim : String := "\x1b[2m"

def ansiUnderline : String := "\x1b[4m"

/-- `pad(text, width)`: `String(null/undefined)` is replaced by `''` by the
explicit guard in the source; overlong text is hard-cut with `slice(0,width)`,
short text right-padded with spaces. -/
def padJs (t : Option String) (width : Nat) : String :=
  let s := t.getD ""
  if s.length > width then String.mk (s.data.take width)
  else if s.length < width then s ++ String.mk (List.replicate (width - s.length) ' ')
  else s

/-- Fractional-digit expansion of `r/d` (with `r < d`), `fuel` bounding the
number of produced digits; used only to display simple configuration values. -/
def fracDigitsAux : Nat → Nat → Nat → List Char
  | 0, _, _ => []
  | _ + 1, 0, _ => []
  | fuel + 1, r, d =>
    let r10 := r * 10
    Char.ofNat (48 + r10 / d) :: fracDigitsAux fuel (r10 % d) d

/-- Decimal rendering of a nonnegative rational, JS-number style
(`15` prints as `"15"`, `3/2` as `"1.5"`). -/
def jsNumPos (q : ℚ) : String :=
  let n := q.num.toNat
  let d := q.den
  let ip := n / d
  let r := n % d
  if r = 0 then toString ip
  else toString ip ++ "." ++ String.mk (fracDigitsAux 20 r d)

/-- JS template-literal rendering of a number. -/
def jsNum (q : ℚ) : String :=
  if q < 0 then "-" ++ jsNumPos (-q) else jsNumPos q

/-- `x.toFixed(d)` per ECMA-262: sign split off, then the magnitude is
rounded to the nearest multiple of `10^-d`, ties upward. -/
def qToFixed (d : Nat) (q : ℚ) : String :=
  let s := if q < 0 then "-" else ""
  let scaled : Nat := (round (|q| * (10 : ℚ) ^ d)).toNat
  let str := toString scaled
  if d = 0 then s ++ str
  else
    let str := if str.length ≤ d then String.mk (List.replicate (d + 1 - str.length) '0') ++ str else str
    s ++ String.mk (str.data.take (str.length - d)) ++ "." ++ String.mk (str.data.drop (str.length - d))

/-- `humanBytes`: `Math.floor(Math.log b / Math.log 1024)` is the integer
base-1024 logarithm, modelled exactly by `Nat.log` on `⌊b⌋`; an index past
the unit table renders as JS `undefined`. -/
def humanBytes (b : ℚ) : String :=
  if b ≤ 0 then "0 B"
  else
    let i := Nat.log 1024 (⌊b⌋).toNat
    let v := b / (1024 : ℚ) ^ i
    qToFixed 1 v ++ " " ++ (["B", "KB", "MB", "GB", "TB"].getD i "undefined")

/-- `progressBar(percentage, width)`. -/
def progressBar (p : ℚ) (width : Nat) : String :=
  let pct := max 0 (min 100 p)
  let filled := (round (pct / 100 * (width : ℚ))).toNat
  String.mk (List.replicate filled '█') ++ String.mk (List.replicate (width - filled) ' ')

/-- `s.slice(0, e)` for a possibly negative end index. -/
def jsSliceTo (s : String) (e : ℤ) : String :=
  if 0 ≤ e then String.mk (s.data.take e.toNat)
  else String.mk (s.data.take (s.length - min s.length (-e).toNat))

/-- `toLowerCase` on character data (ASCII). -/
def lowerL (l : List Char) : List Char := l.map Char.toLower

/-- JS `String.prototype.trim`: strip leading and trailing whitespace. -/
def jsTrim (s : String) : String :=
  String.mk (((s.data.dropWhile Char.isWhitespace).reverse.dropWhile Char.isWhitespace).reverse)

/-- `toUpperCase` (ASCII). -/
def upperStr (s : String) : String := String.mk (s.data.map Char.toUpper)

/-- `hay`-starts-with-`needle`, the prefix test underlying `includes`. -/
def startsWithB : List Char → List Char → Bool
  | _, [] => true
  | [], _ :: _ => false
  | c :: t, d :: u => c == d && startsWithB t u

/-- `hay.includes(needle)`: substring occurrence test. -/
def containsB : List Char → List Char → Bool
  | [], n => n.isEmpty
  | c :: t, n => startsWithB (c :: t) n || containsB t n

/-- `n` occurs contiguously inside `hay`. -/
def IsSubstr (n hay : List Char) : Prop := ∃ pre post, hay = pre ++ n ++ post

/-! ### Data model -/

/-- Power-model knobs `CPU_TDP_W` / `MEM_W_PER_GB` (lines 56-59). -/
structure PowerCfg where
  tdp : ℚ
  memWgb : ℚ
deriving DecidableEq

/-- One raw record from
`Get-CimInstance Win32_Process | Select-Object ...` (line 270); every field
may be absent from the JSON. -/
structure RawProc where
  ProcessId : Option ℚ := none
  Name : Option String := none
  CommandLine : Option String := none
  KernelModeTime : Option ℚ := none
  UserModeTime : Option ℚ := none
  WorkingSetSize : Option ℚ := none
deriving DecidableEq

/-- A processed row pushed by `sampleProcesses` (lines 302-310). -/
structure Row where
  pid : ℚ
  name : String
  cmd : String
  cpuSec : ℚ
  cpuPct : ℚ
  memBytes : ℚ
  estW : ℚ
deriving DecidableEq

/-- The module-level sampler state `prevCpuMap` / `prevSampleTime`
(lines 266-267); times are in milliseconds. -/
structure SamplerState where
  prevCpuMap : List (ℚ × ℚ)
  prevSampleTime : ℚ
deriving DecidableEq

/-- The record returned by `sampleSystem` (line 260). -/
structure SystemSnap where
  cpu : ℚ
  totalMem : ℚ
  usedMem : ℚ
  procCount : Nat
  uptime : String
  estPowerW : ℚ
  cpuW : ℚ
  memW : ℚ
deriving DecidableEq

/-- The record returned by `sampleBattery`. -/
structure Battery where
  charge : Option ℚ
  status : String
deriving DecidableEq

/-- The sort keys of `cmpMap` (line 321). -/
inductive SortKey where
  | cpu | mem | pid | name | power
deriving DecidableEq

/-- The view state mutated by the input handler: `sortBy`, `sortDesc`,
`filterStr`, `topN` (lines 53, 321-323). -/
structure ViewState where
  sortBy : SortKey
  sortDesc : Bool
  filterStr : String
  topN : Nat
deriving DecidableEq

/-! ### CPU-history map (JS `Map` as an association list) -/

/-- `map.get k` — first matching entry. -/
def histFind : List (ℚ × ℚ) → ℚ → Option ℚ
  | [], _ => none
  | e :: t, k => if e.1 = k then some e.2 else histFind t k

/-- `map.set k v` — update in place when present, else append. -/
def histSet (m : List (ℚ × ℚ)) (k v : ℚ) : List (ℚ × ℚ) :=
  if (histFind m k).isSome then m.map (fun e => if e.1 = k then (k, v) else e)
  else m ++ [(k, v)]

/-! ### Power model -/

/-- Per-process estimated watts, line 300:
`(Math.max(0, cpuPct) / 100) * CPU_TDP_W + memGB * MEM_W_PER_GB`. -/
def procEstW (cfg : PowerCfg) (cpuPct memGB : ℚ) : ℚ :=
  max 0 cpuPct / 100 * cfg.tdp + memGB * cfg.memWgb

/-- System-scope estimated watts, lines 253-258 of `sampleSystem`:
the CPU percent is clamped to `[0,100]`, used memory converted to GiB. -/
def sysPowerW (cfg : PowerCfg) (cpu usedMem : ℚ) : ℚ :=
  let cpuPct := max 0 (min 100 cpu)
  let usedMemGB := usedMem / (1024 * 1024 * 1024)
  cpuPct / 100 * cfg.tdp + usedMemGB * cfg.memWgb

/-- Modelled from the spec: the Power Estimator of §4.3,
`watts(cpuPercent, memGb) = clamp(cpuPercent,0,100)/100 * cpuTdpWatts +
max(0,memGb) * memWattsPerGb`; stated for comparison with the power
expressions extracted from the source. -/
def wattsSpec (cfg : PowerCfg) (cpuPercent memGb : ℚ) : ℚ :=
  min 100 (max 0 cpuPercent) / 100 * cfg.tdp + max 0 memGb * cfg.memWgb

/-! ### Process sampler (lines 279-317) -/

/-- The body of the `for (const p of raw)` loop of `sampleProcesses`.
`Number(x || 0)` on a possibly-absent JSON field is `Option.getD 0`;
the `Number.isFinite` coercion on `cpuPct`/`estW` is the identity here
because rationals are always finite. -/
def mkRow (cfg : PowerCfg) (hist : List (ℚ × ℚ)) (dtSec : ℚ) (logicalCores : Nat)
    (p : RawProc) : Row :=
  let pid := p.ProcessId.getD 0
  let kTicks := p.KernelModeTime.getD 0
  let uTicks := p.UserModeTime.getD 0
  let totalTicks := kTicks + uTicks
  let cpuSec := totalTicks / 10000000
  let prev := (histFind hist pid).getD 0
  let delta := max 0 (cpuSec - prev)
  let cpuPct := delta / dtSec / (max 1 logicalCores : Nat) * 100
  let memBytes := p.WorkingSetSize.getD 0
  let memGB := memBytes / (1024 * 1024 * 1024)
  { pid := pid
    name := p.Name.getD ""
    cmd := jsTrim (p.CommandLine.getD "")
    cpuSec := cpuSec
    cpuPct := cpuPct
    memBytes := memBytes
    estW := procEstW cfg cpuPct memGB }

/-- `sampleProcesses`: computes `dtSec`, maps the loop body over the raw
sample, then rebuilds `prevCpuMap` from scratch (`clear` + `set` per row).
`now` and `prevSampleTime` are in milliseconds. -/
def sampleProcesses (cfg : PowerCfg) (st : SamplerState) (logicalCores : Nat)
    (raw : List RawProc) (now : ℚ) : List Row × SamplerState :=
  let dtSec := max ((now - st.prevSampleTime) / 1000) (1 / 1000)
  let rows := raw.map (mkRow cfg st.prevCpuMap dtSec logicalCores)
  let newMap := rows.foldl (fun m r => histSet m r.pid r.cpuSec) []
  (rows, { prevCpuMap := newMap, prevSampleTime := now })

/-- The seeding loop of `main` (lines 552-562): fills `prevCpuMap` with
`pid → cpuSec` from an initial raw sample. -/
def seedHistory (raw : List RawProc) : List (ℚ × ℚ) :=
  raw.foldl
    (fun m p =>
      histSet m (p.ProcessId.getD 0)
        ((p.KernelModeTime.getD 0 + p.UserModeTime.getD 0) / 10000000))
    []

/-- Last-occurrence lookup over a row list: the value the rebuilt history
associates with `q`. -/
def lookupLast : List Row → ℚ → Option ℚ
  | [], _ => none
  | r :: t, q =>
    match lookupLast t q with
    | some v => some v
    | none => if r.pid = q then some r.cpuSec else none

/-! ### Ranking engine (lines 325-349) -/

/-- The filter predicate of `sortAndFilterProcesses`: the filter string is
lowercased once, a row passes when its (truthy) name or command line
contains it case-insensitively. -/
def matchesFilter (filterStr : String) (r : Row) : Bool :=
  let f := lowerL filterStr.data
  (!r.name.data.isEmpty && containsB (lowerL r.name.data) f) ||
  (!r.cmd.data.isEmpty && containsB (lowerL r.cmd.data) f)

/-- `if (filterStr) { filtered = rows.filter(...) }` — an empty filter
string is falsy and skips filtering. -/
def filterRows (vs : ViewState) (rows : List Row) : List Row :=
  if vs.filterStr = "" then rows else rows.filter (matchesFilter vs.filterStr)

/-- Three-way string comparison modelling `localeCompare`
(negative / zero / positive). -/
def nameCmp (a b : String) : ℚ :=
  if a < b then -1 else if b < a then 1 else 0

/-- The entries of `cmpMap` (line 337): the comparator selected by the
sort key. -/
def baseCmp (k : SortKey) (a b : Row) : ℚ :=
  match k with
  | .cpu => a.cpuPct - b.cpuPct
  | .mem => a.memBytes - b.memBytes
  | .pid => a.pid - b.pid
  | .name => nameCmp a.name b.name
  | .power => a.estW - b.estW

/-- The comparator `(sortDesc ? -1 : 1) * cmpMap[sortBy](a, b)`. -/
def effCmp (vs : ViewState) (a b : Row) : ℚ :=
  (if vs.sortDesc then -1 else 1) * baseCmp vs.sortBy a b

/-- The "should sort no later than" relation induced by the comparator. -/
def effLe (vs : ViewState) (a b : Row) : Prop := effCmp vs a b ≤ 0

instance (vs : ViewState) : DecidableRel (effLe vs) :=
  fun a b => inferInstanceAs (Decidable (effCmp vs a b ≤ 0))

/-- `sortAndFilterProcesses`: filter, stable full sort by the selected
comparator (JS `Array.sort` is stable), then `slice(0, topN)`. -/
def sortAndFilterProcesses (vs : ViewState) (rows : List Row) : List Row :=
  ((filterRows vs rows).insertionSort (effLe vs)).take vs.topN

/-! ### Renderer (lines 353-487) -/

/-- The display name of a sort key (`sortBy.toUpperCase()` is applied at
the use site). -/
def sortKeyStr : SortKey → String
  | .cpu => "cpu"
  | .mem => "mem"
  | .pid => "pid"
  | .name => "name"
  | .power => "power"

/-- One process row of the PROCESSES table (lines 454-479). -/
def renderProcRow (cfg : PowerCfg) (cmdW : Nat) (p : Row) : String :=
  let cpuStr := qToFixed 1 p.cpuPct
  let memStr := humanBytes p.memBytes
  let pwrStrProc := qToFixed 2 p.estW
  let hot := p.cpuPct > 50 ∨ p.estW > cfg.tdp * (1 / 2)
  let warm := p.cpuPct > 20 ∨ p.estW > cfg.tdp * (1 / 5)
  let color := if hot then ansiRed else if warm then ansiYellow else ""
  let endColor := if hot ∨ warm then ansiReset else ""
  let line :=
    padJs (some (jsNum p.pid)) 6 ++ " " ++
    padJs (some cpuStr) 7 ++ " " ++
    padJs (some pwrStrProc) 9 ++ " " ++
    padJs (some memStr) 10 ++ " " ++
    padJs (some p.name) 18 ++ " " ++
    padJs (some p.cmd) cmdW
  color ++ line ++ endColor ++ "\n"

/-- `render`: the concatenation of everything written to stdout for one
frame.  The wall-clock reading `timestamp()` (line 361 / 96-98) is an
input `clock`; `widthIn` is `process.stdout.columns` with `0` standing
for a falsy/undefined column count (`|| 120`). -/
def render (clock cpuModel : String) (logicalCores : Nat) (cfg : PowerCfg)
    (vs : ViewState) (widthIn : Nat) (system : SystemSnap) (processes : List Row)
    (battery : Option Battery) (powerScheme : String) : String :=
  let width := if widthIn = 0 then 120 else widthIn
  let title :=
    ansiBold ++ ansiCyan ++ "win-top+ — Windows performance monitor" ++ ansiReset ++
    "   " ++ ansiDim ++ "[" ++ clock ++ "]" ++ ansiReset ++ "\n"
  let trimmedModel :=
    if (cpuModel.length : ℤ) > (width : ℤ) - 20 then
      jsSliceTo cpuModel ((width : ℤ) - 23) ++ "..."
    else cpuModel
  let modelLine :=
    ansiDim ++ "CPU:" ++ ansiReset ++ " " ++ trimmedModel ++ "   " ++
    ansiDim ++ "Logical cores:" ++ ansiReset ++ " " ++ toString logicalCores ++ "   " ++
    ansiDim ++ "TDP model:" ++ ansiReset ++ " " ++ jsNum cfg.tdp ++ "W CPU, " ++
    jsNum cfg.memWgb ++ "W/GB RAM\n"
  let cpuPct := max 0 (min 100 system.cpu)
  let memPct := if system.totalMem = 0 then 0 else system.usedMem / system.totalMem * 100
  let barWidth := min 40 (max 10 (width * 2 / 5))
  let sysHeader := "\n" ++ ansiBold ++ "SYSTEM" ++ ansiReset ++ "\n"
  let cpuBar := progressBar cpuPct barWidth
  let cpuColor := if cpuPct > 70 then ansiRed else if cpuPct > 40 then ansiYellow else ansiGreen
  let cpuLine :=
    " CPU  " ++ cpuColor ++ padJs (some (qToFixed 1 cpuPct ++ "%")) 7 ++ ansiReset ++
    " [" ++ cpuBar ++ "]" ++ "   " ++ ansiDim ++ "Processes:" ++ ansiReset ++ " " ++
    toString system.procCount ++ "   " ++ ansiDim ++ "Uptime:" ++ ansiReset ++ " " ++
    system.uptime ++ "\n"
  let memBar := progressBar memPct barWidth
  let memColor := if memPct > 80 then ansiRed else if memPct > 60 then ansiYellow else ansiGreen
  let memLine :=
    " MEM  " ++ memColor ++ padJs (some (qToFixed 1 memPct ++ "%")) 7 ++ ansiReset ++
    " [" ++ memBar ++ "]" ++ "   " ++ ansiDim ++ "Used:" ++ ansiReset ++ " " ++
    humanBytes system.usedMem ++ "  " ++ ansiDim ++ "Total:" ++ ansiReset ++ " " ++
    humanBytes system.totalMem ++ "\n"
  let totalW := max 0 system.estPowerW
  let cpuW := max 0 system.cpuW
  let memW := max 0 system.memW
  let pwrStr := "~" ++ qToFixed 1 totalW ++ " W"
  let cpuWStr := "CPU: " ++ qToFixed 1 cpuW ++ "W"
  let memWStr := "RAM: " ++ qToFixed 1 memW ++ "W"
  let battStr :=
    match battery with
    | some b => (match b.charge with | some c => jsNum c ++ "%" | none => "?%") ++ " (" ++ b.status ++ ")"
    | none => "N/A"
  let schemeStr := if powerScheme = "" then "Unknown" else powerScheme
  let pwrLine :=
    " PWR  " ++ ansiYellow ++ padJs (some pwrStr) 9 ++ ansiReset ++ "   " ++
    ansiDim ++ cpuWStr ++ ", " ++ memWStr ++ ansiReset ++ "   " ++
    ansiDim ++ "Scheme:" ++ ansiReset ++ " " ++ schemeStr ++ "   " ++
    ansiDim ++ "Battery:" ++ ansiReset ++ " " ++ battStr ++ "\n"
  let procsHeader :=
    "\n" ++ ansiBold ++ "PROCESSES" ++ ansiReset ++ "  " ++ ansiDim ++
    "(sorted by " ++ upperStr (sortKeyStr vs.sortBy) ++ " " ++
    (if vs.sortDesc then "desc" else "asc") ++ ", top " ++ toString vs.topN ++
    ", filter: " ++ (if vs.filterStr = "" then "none" else vs.filterStr) ++ ")" ++
    ansiReset ++ "\n\n\n"
  let cmdW := (max 10 ((width : ℤ) - (6 + 7 + 9 + 10 + 18 + 5))).toNat
  let header :=
    padJs (some "PID") 6 ++ " " ++ padJs (some "CPU%") 7 ++ " " ++
    padJs (some "PWR(W)") 9 ++ " " ++ padJs (some "MEM") 10 ++ " " ++
    padJs (some "NAME") 18 ++ " " ++ padJs (some "COMMAND") cmdW
  let headerLine := ansiUnderline ++ header ++ ansiReset ++ "\n"
  let rowsStr := String.join (processes.map (renderProcRow cfg cmdW))
  let footer :=
    "\n" ++ ansiDim ++
    "Keys: c=CPU  m=MEM  p=PID  n=NAME  r=reverse  /=filter  +=faster  -=slower  k=kill  q=quit" ++
    ansiReset ++ "\n"
  title ++ modelLine ++ sysHeader ++ cpuLine ++ memLine ++ pwrLine ++ procsHeader ++
    headerLine ++ rowsStr ++ footer

/-! ### Raw process query and scheduler tick (lines 269-277, 566-581) -/

/-- Shape of a parsed `ConvertTo-Json` payload for the process query. -/
inductive PSJson where
  | arrJ : List RawProc → PSJson
  | objJ : RawProc → PSJson

/-- `sampleProcessesRaw`: `powershellJson` yields `none` on failure, empty
output or unparsable JSON; a falsy payload produces the empty list, a bare
object is wrapped in a singleton array. -/
def sampleProcessesRaw : Option PSJson → List RawProc
  | none => []
  | some (.arrJ l) => l
  | some (.objJ p) => [p]

/-- What one `tick` leaves behind: the frame written (if any), the
`console.error` line (if any), and the delay passed to `setTimeout` in the
`finally` block. -/
structure TickOutcome where
  frame : Option String
  logged : Option String
  nextDelayMs : Nat
deriving DecidableEq

/-- One `tick` of the main loop: the four concurrently awaited sources are
modelled as `Except` values (a rejection anywhere inside `try` reaches the
`catch`); on success the ranked list is rendered, on failure the error is
logged; the `finally` block schedules the next tick either way. -/
def tickStep (intervalMs : Nat) (clock cpuModel : String) (logicalCores : Nat)
    (cfg : PowerCfg) (vs : ViewState) (widthIn : Nat)
    (sys : Except String SystemSnap) (procs : Except String (List Row))
    (batt : Except String (Option Battery)) (scheme : Except String String) :
    TickOutcome :=
  match (do
      let s ← sys
      let ps ← procs
      let b ← batt
      let sc ← scheme
      pure (render clock cpuModel logicalCores cfg vs widthIn s
        (sortAndFilterProcesses vs ps) b sc) : Except String String) with
  | .ok f => { frame := some f, logged := none, nextDelayMs := intervalMs }
  | .error e => { frame := none, logged := some ("Error: " ++ e), nextDelayMs := intervalMs }

/-! ### Refresh-interval keys (lines 510-511) -/

/-- `'+'`: `intervalMs = Math.max(200, Math.floor(intervalMs * 0.8))`;
`⌊n·0.8⌋ = ⌊4n/5⌋` exactly. -/
def stepPlus (n : Nat) : Nat := max 200 (4 * n / 5)

/-- `'-'`: `intervalMs = Math.min(60000, Math.ceil(intervalMs * 1.25))`;
`⌈n·1.25⌉ = ⌈5n/4⌉ = (5n+3)/4` exactly. -/
def stepMinus (n : Nat) : Nat := min 60000 ((5 * n + 3) / 4)

/-- The two interval keys. -/
inductive IKey where
  | plus | minus
deriving DecidableEq

/-- One key press applied to the interval. -/
def applyKey : IKey → Nat → Nat
  | .plus, n => stepPlus n
  | .minus, n => stepMinus n

/-- A whole sequence of `+`/`-` presses. -/
def applyKeys (ks : List IKey) (n : Nat) : Nat :=
  ks.foldl (fun m k => applyKey k m) n

/-- Per-row effect of the ranking filter including the falsy-string guard
`if (filterStr)`: an empty filter string passes every row. -/
def passesFilter (fs : String) (r : Row) : Bool :=
  if fs = "" then true else matchesFilter fs r

/-- Concrete rows of the spec's stable-sort test vector. -/
def exRowA : Row := { pid := 1, name := "", cmd := "", cpuSec := 0, cpuPct := 0, memBytes := 100, estW := 0 }

def exRowB : Row := { pid := 2, name := "", cmd := "", cpuSec := 0, cpuPct := 0, memBytes := 300, estW := 0 }

def exRowC : Row := { pid := 3, name := "", cmd := "", cpuSec := 0, cpuPct := 0, memBytes := 100, estW := 0 }

/-- View state "sort by memory, descending" used by the test vector. -/
def exMemVs : ViewState := { sortBy := .mem, sortDesc := true, filterStr := "", topN := 20 }

/-! ### Theorems -/

theorem interval_step_bounds (m : Nat) (h1 : 200 ≤ m) (h2 : m ≤ 60000) :
    (200 ≤ stepPlus m ∧ stepPlus m ≤ 60000) ∧ (200 ≤ stepMinus m ∧ stepMinus m ≤ 60000) := by
  unfold stepPlus stepMinus
  omega

theorem applyKeys_inv (ks : List IKey) :
    ∀ n : Nat, 200 ≤ n → n ≤ 60000 → 200 ≤ applyKeys ks n ∧ applyKeys ks n ≤ 60000 := by
  induction ks with
  | nil => intro n h1 h2; exact ⟨h1, h2⟩
  | cons k ks ih =>
    intro n h1 h2
    have hstep := interval_step_bounds n h1 h2
    show 200 ≤ applyKeys ks (applyKey k n) ∧ applyKeys ks (applyKey k n) ≤ 60000
    cases k with
    | plus => exact ih _ hstep.1.1 hstep.1.2
    | minus => exact ih _ hstep.2.1 hstep.2.2

/-- C6: starting anywhere in `[200, 60000]`, no sequence of `+`/`-` presses
leaves the range, and within the range each press computes exactly the
multiply-then-clamp the spec describes. -/
theorem c6_interval_never_leaves_range :
    ∀ n : Nat, 200 ≤ n → n ≤ 60000 →
      (∀ ks : List IKey, 200 ≤ applyKeys ks n ∧ applyKeys ks n ≤ 60000) ∧
      stepPlus n = min 60000 (max 200 (4 * n / 5)) ∧
      stepMinus n = max 200 (min 60000 ((5 * n + 3) / 4)) := by
  intro n h1 h2
  refine ⟨fun ks => applyKeys_inv ks n h1 h2, ?_, ?_⟩
  · unfold stepPlus
    omega
  · unfold stepMinus
    omega

theorem c6_witness :
    200 ≤ applyKeys [.plus, .plus, .minus, .plus, .minus, .minus] 1000 ∧
    applyKeys [.plus, .plus, .minus, .plus, .minus, .minus] 1000 ≤ 60000 :=
  (c6_interval_never_leaves_range 1000 (by decide) (by decide)).1
    [.plus, .plus, .minus, .plus, .minus, .minus]

/-- C10: `pad` always returns exactly `width` characters — overlong text is
hard-cut to the width, short text right-padded with spaces, and `null`/
`undefined` render like the empty string. -/
theorem c10_pad_fixed_width :
    (∀ (t : Option String) (w : Nat), (padJs t w).length = w) ∧
    (∀ (t : Option String) (w : Nat), w ≤ (t.getD "").length →
      padJs t w = String.mk ((t.getD "").data.take w)) ∧
    (∀ (t : Option String) (w : Nat), (t.getD "").length < w →
      padJs t w = (t.getD "") ++ String.mk (List.replicate (w - (t.getD "").length) ' ')) ∧
    (∀ w : Nat, padJs none w = padJs (some "") w) := by
  have hdata : ∀ s : String, s.length = s.data.length := fun _ => rfl
  refine ⟨?_, ?_, ?_, ?_⟩
  · intro t w
    unfold padJs
    rcases lt_trichotomy w (t.getD "").length with h | h | h
    · rw [if_pos h, String.length_mk, List.length_take]
      rw [hdata] at h
      omega
    · rw [if_neg (by omega), if_neg (by omega)]
      exact h.symm
    · rw [if_neg (by omega), if_pos h, String.length_append]
      simp only [String.length_mk, List.length_replicate]
      omega
  · intro t w h
    unfold padJs
    rcases eq_or_lt_of_le h with h' | h'
    · rw [if_neg (by omega), if_neg (by omega), String.ext_iff]
      show (t.getD "").data = (t.getD "").data.take w
      rw [List.take_of_length_le (by rw [← hdata]; omega)]
    · rw [if_pos h']
  · intro t w h
    unfold padJs
    rw [if_neg (by omega), if_pos h]
  · intro w
    rfl

theorem c10_witness :
    padJs (some "abcdef") 3 = String.mk ("abcdef".data.take 3) ∧
    padJs (some "ab") 4 = "ab" ++ String.mk (List.replicate 2 ' ') :=
  ⟨c10_pad_fixed_width.2.1 (some "abcdef") 3 (by decide),
   c10_pad_fixed_width.2.2.1 (some "ab") 4 (by decide)⟩

theorem startsWithB_iff (n : List Char) :
    ∀ hay : List Char, startsWithB hay n = true ↔ ∃ post, hay = n ++ post := by
  induction n with
  | nil => intro hay; simp [startsWithB]
  | cons d u ih =>
    intro hay
    cases hay with
    | nil => simp [startsWithB]
    | cons c t => simp [startsWithB, ih, exists_and_left]

theorem containsB_iff (hay n : List Char) :
    containsB hay n = true ↔ IsSubstr n hay := by
  induction hay with
  | nil =>
    simp [containsB, IsSubstr, List.isEmpty_iff, eq_comm (a := ([] : List Char))]
  | cons c t ih =>
    rw [containsB, Bool.or_eq_true, startsWithB_iff, ih]
    constructor
    · rintro (⟨post, h⟩ | ⟨pre, post, h⟩)
      · exact ⟨[], post, by simpa using h⟩
      · exact ⟨c :: pre, post, by simp [h]⟩
    · rintro ⟨pre, post, h⟩
      cases pre with
      | nil => exact Or.inl ⟨post, by simpa using h⟩
      | cons x xs =>
        rw [List.cons_append, List.cons_append, List.cons.injEq] at h
        exact Or.inr ⟨xs, post, by simpa using h.2⟩

/-- C5: a row passes the ranking filter iff the (lowercased) filter string
occurs inside the lowercased name or command line; the empty filter string
is falsy and passes everything; `"chrome"` matches `"Chrome Helper"` but
not `"chromium"`. -/
theorem c5_filter_semantics :
    (∀ (fs : String) (r : Row),
      passesFilter fs r = true ↔
        (IsSubstr (lowerL fs.data) (lowerL r.name.data) ∨
         IsSubstr (lowerL fs.data) (lowerL r.cmd.data))) ∧
    (∀ (vs : ViewState) (rows : List Row),
      filterRows vs rows = rows.filter (passesFilter vs.filterStr)) ∧
    passesFilter "chrome"
      { pid := 0, name := "Chrome Helper", cmd := "", cpuSec := 0, cpuPct := 0,
        memBytes := 0, estW := 0 } = true ∧
    passesFilter "chrome"
      { pid := 0, name := "chromium", cmd := "", cpuSec := 0, cpuPct := 0,
        memBytes := 0, estW := 0 } = false := by
  have hnil : ∀ f : List Char, IsSubstr f [] → f = [] := by
    rintro f ⟨pre, post, h⟩
    rcases List.append_eq_nil.mp (List.append_eq_nil.mp h.symm).1 with ⟨-, h2⟩
    exact h2
  refine ⟨?_, ?_, by decide, by decide⟩
  · intro fs r
    by_cases hfs : fs = ""
    · subst hfs
      exact iff_of_true (by rfl) (Or.inl ⟨[], lowerL r.name.data, by simp [lowerL]⟩)
    · have hf : lowerL fs.data ≠ [] := by
        simp only [lowerL, ne_eq, List.map_eq_nil_iff]
        intro h
        exact hfs (String.ext h)
      simp only [passesFilter, if_neg hfs, matchesFilter, Bool.or_eq_true, Bool.and_eq_true,
        Bool.not_eq_true', containsB_iff]
      constructor
      · rintro (⟨-, h⟩ | ⟨-, h⟩)
        · exact Or.inl h
        · exact Or.inr h
      · rintro (h | h)
        · refine Or.inl ⟨?_, h⟩
          cases hh : r.name.data.isEmpty
          · rfl
          · exact absurd
              (hnil _ (by rw [List.isEmpty_iff.mp hh] at h; simpa [lowerL] using h)) hf
        · refine Or.inr ⟨?_, h⟩
          cases hh : r.cmd.data.isEmpty
          · rfl
          · exact absurd
              (hnil _ (by rw [List.isEmpty_iff.mp hh] at h; simpa [lowerL] using h)) hf
  · intro vs rows
    unfold filterRows
    by_cases h : vs.filterStr = ""
    · rw [if_pos h, h]
      have hpf : passesFilter "" = fun _ : Row => true := funext fun r => by simp [passesFilter]
      rw [hpf, List.filter_true]
    · rw [if_neg h]
      congr 1
      funext r
      rw [passesFilter, if_neg h]

theorem c5_witness :
    passesFilter "chrome"
      { pid := 0, name := "Chrome Helper", cmd := "", cpuSec := 0, cpuPct := 0,
        memBytes := 0, estW := 0 } = true ↔
    (IsSubstr (lowerL "chrome".data) (lowerL ("Chrome Helper" : String).data) ∨
     IsSubstr (lowerL "chrome".data) (lowerL ("" : String).data)) :=
  c5_filter_semantics.1 "chrome"
    { pid := 0, name := "Chrome Helper", cmd := "", cpuSec := 0, cpuPct := 0,
      memBytes := 0, estW := 0 }

theorem nameCmp_nonpos_iff (a b : String) : nameCmp a b ≤ 0 ↔ a ≤ b := by
  unfold nameCmp
  rcases lt_trichotomy a b with h | h | h
  · rw [if_pos h]
    exact iff_of_true (by norm_num) h.le
  · subst h
    rw [if_neg (lt_irrefl a), if_neg (lt_irrefl a)]
    exact iff_of_true le_rfl le_rfl
  · rw [if_neg (asymm h), if_pos h]
    exact iff_of_false (by norm_num) (not_le.mpr h)

theorem nameCmp_nonneg_iff (a b : String) : 0 ≤ nameCmp a b ↔ b ≤ a := by
  unfold nameCmp
  rcases lt_trichotomy a b with h | h | h
  · rw [if_pos h]
    exact iff_of_false (by norm_num) (not_le.mpr h)
  · subst h
    rw [if_neg (lt_irrefl a), if_neg (lt_irrefl a)]
    exact iff_of_true le_rfl le_rfl
  · rw [if_neg (asymm h), if_pos h]
    exact iff_of_true (by norm_num) h.le

theorem nameCmp_neg (a b : String) : nameCmp a b = -nameCmp b a := by
  unfold nameCmp
  rcases lt_trichotomy a b with h | h | h
  · rw [if_pos h, if_neg (asymm h), if_pos h]
  · subst h
    rw [if_neg (lt_irrefl a), if_neg (lt_irrefl a)]
    norm_num
  · rw [if_neg (asymm h), if_pos h, if_pos h]
    norm_num

theorem baseCmp_neg (k : SortKey) (a b : Row) : baseCmp k a b = -baseCmp k b a := by
  cases k <;> simp only [baseCmp]
  case name => exact nameCmp_neg _ _
  all_goals ring

theorem baseCmp_trans (k : SortKey) (a b c : Row) :
    baseCmp k a b ≤ 0 → baseCmp k b c ≤ 0 → baseCmp k a c ≤ 0 := by
  cases k <;> simp only [baseCmp, nameCmp_nonpos_iff] <;> intro h1 h2 <;>
    first | linarith | exact le_trans h1 h2

theorem baseCmp_total (k : SortKey) (a b : Row) :
    baseCmp k a b ≤ 0 ∨ baseCmp k b a ≤ 0 := by
  rcases le_total (baseCmp k a b) 0 with h | h
  · exact Or.inl h
  · right
    rw [baseCmp_neg]
    linarith

theorem effLe_iff (vs : ViewState) (a b : Row) :
    effLe vs a b ↔
      (if vs.sortDesc then baseCmp vs.sortBy b a ≤ 0 else baseCmp vs.sortBy a b ≤ 0) := by
  unfold effLe effCmp
  cases vs.sortDesc
  · rw [if_neg (by simp), if_neg (by simp), one_mul]
  · rw [if_pos rfl, if_pos rfl, neg_one_mul, baseCmp_neg vs.sortBy a b, neg_neg]

theorem effLe_total (vs : ViewState) (a b : Row) : effLe vs a b ∨ effLe vs b a := by
  rw [effLe_iff, effLe_iff]
  cases h : vs.sortDesc <;> simp only [if_pos, if_neg, Bool.false_eq_true, if_true, if_false]
  · exact baseCmp_total vs.sortBy a b
  · exact baseCmp_total vs.sortBy b a

theorem effLe_trans (vs : ViewState) (a b c : Row) :
    effLe vs a b → effLe vs b c → effLe vs a c := by
  rw [effLe_iff, effLe_iff, effLe_iff]
  cases h : vs.sortDesc <;>
    simp only [if_pos, if_neg, Bool.false_eq_true, if_true, if_false] <;> intro h1 h2
  · exact baseCmp_trans vs.sortBy a b c h1 h2
  · exact baseCmp_trans vs.sortBy c b a h2 h1

theorem filter_insertionSort_ties (r : Row → Row → Prop) [DecidableRel r]
    (p : Row → Bool) (l : List Row)
    (hp : ∀ x y, p x = true → p y = true → r x y) :
    (l.insertionSort r).filter p = l.filter p := by
  have h2 : (l.filter p).Pairwise r := by
    rw [List.pairwise_iff_forall_sublist]
    intro a b hab
    have ha : a ∈ l.filter p := hab.subset (by simp)
    have hb : b ∈ l.filter p := hab.subset (by simp)
    exact hp a b (List.of_mem_filter ha) (List.of_mem_filter hb)
  have h3 : List.Sublist (l.filter p) (l.insertionSort r) :=
    List.sublist_insertionSort h2 (List.filter_sublist l)
  have h4 : List.Sublist (l.filter p) ((l.insertionSort r).filter p) := by
    have h5 := h3.filter p
    simpa only [List.filter_filter, Bool.and_self] using h5
  have hlen : ((l.insertionSort r).filter p).length = (l.filter p).length :=
    ((List.perm_insertionSort r l).filter p).length_eq
  exact (h4.eq_of_length hlen.symm).symm

/-- C4: the ranking output is filter, then a stable full sort by the
selected direction-adjusted comparator, then `take topN`; the sorted stage
is a permutation of the filtered input, is sorted for the comparator, and
preserves the relative input order of any set of pairwise-tied rows;
sorting the spec's vector by `mem` descending yields pid order
`[2, 1, 3]`. -/
theorem c4_ranking_stable_sort :
    (∀ (vs : ViewState) (rows : List Row),
      sortAndFilterProcesses vs rows =
        ((filterRows vs rows).insertionSort (effLe vs)).take vs.topN ∧
      ((filterRows vs rows).insertionSort (effLe vs)).Perm (filterRows vs rows) ∧
      ((filterRows vs rows).insertionSort (effLe vs)).Sorted (effLe vs) ∧
      (∀ p : Row → Bool,
        (∀ x y, p x = true → p y = true → effCmp vs x y = 0) →
        ((filterRows vs rows).insertionSort (effLe vs)).filter p =
          (filterRows vs rows).filter p)) ∧
    (sortAndFilterProcesses exMemVs [exRowA, exRowB, exRowC]).map Row.pid = [2, 1, 3] := by
  constructor
  · intro vs rows
    refine ⟨rfl, List.perm_insertionSort _ _, ?_, ?_⟩
    · haveI : IsTotal Row (effLe vs) := ⟨effLe_total vs⟩
      haveI : IsTrans Row (effLe vs) := ⟨effLe_trans vs⟩
      exact List.sorted_insertionSort _ _
    · intro p hp
      exact filter_insertionSort_ties _ p _ (fun x y hx hy => (hp x y hx hy).le)
  · norm_num [sortAndFilterProcesses, filterRows, exMemVs, exRowA, exRowB, exRowC,
      List.insertionSort, List.orderedInsert, effLe, effCmp, baseCmp]

theorem c4_witness :
    ((filterRows exMemVs [exRowA, exRowB, exRowC]).insertionSort (effLe exMemVs)).filter
        (fun r => decide (r = exRowA) || decide (r = exRowC)) =
      (filterRows exMemVs [exRowA, exRowB, exRowC]).filter
        (fun r => decide (r = exRowA) || decide (r = exRowC)) :=
  (c4_ranking_stable_sort.1 exMemVs [exRowA, exRowB, exRowC]).2.2.2
    (fun r => decide (r = exRowA) || decide (r = exRowC))
    (by
      intro x y hx hy
      simp only [Bool.or_eq_true, decide_eq_true_eq] at hx hy
      rcases hx with rfl | rfl <;> rcases hy with rfl | rfl <;>
        norm_num [effCmp, baseCmp, exMemVs, exRowA, exRowC])

/-- C2 counterexample: a process whose delta-CPU rate works out to 150%
(1.5 CPU-seconds in a 1-second window on a 1-core box) gets
`estW = 1.5 · TDP = 22.5 W` from the code, while the spec's `watts`
function — which clamps the CPU percentage to at most 100 — gives 15 W.
So at process scope the CPU percentage is *not* clamped to 100. -/
theorem c2_counterexample :
    ((sampleProcesses ⟨15, 3 / 2⟩ ⟨[], 0⟩ 1
        [⟨some 7, none, none, some 15000000, some 0, some 0⟩] 1000).1.map
      (fun r => (r.cpuPct, r.estW,
        wattsSpec ⟨15, 3 / 2⟩ r.cpuPct (r.memBytes / (1024 * 1024 * 1024))))) =
    [(150, 45 / 2, 15)] := by
  norm_num [sampleProcesses, mkRow, procEstW, wattsSpec, histFind, max_def, min_def]

/-- C2 amended: the power expressions of both scopes agree with the spec's
`watts` whenever the CPU percentage already lies in `[0,100]` and the
memory amount is nonnegative (there the clamps are no-ops); the system
scope clamps CPU to `[0,100]`, but the process scope only clamps below at
0 and applies no `max(0,·)` to memory; `watts(50, 2GiB) = 10.5` holds at
both scopes for TDP 15 and 1.5 W/GB. -/
theorem c2_watts_model :
    (∀ (cfg : PowerCfg) (c m : ℚ), 0 ≤ c → c ≤ 100 → 0 ≤ m →
      procEstW cfg c m = wattsSpec cfg c m) ∧
    (∀ (cfg : PowerCfg) (c u : ℚ), 0 ≤ u →
      sysPowerW cfg c u = wattsSpec cfg c (u / (1024 * 1024 * 1024))) ∧
    (∀ (cfg : PowerCfg) (c m : ℚ), procEstW cfg c m = max 0 c / 100 * cfg.tdp + m * cfg.memWgb) ∧
    procEstW ⟨15, 3 / 2⟩ 50 2 = 21 / 2 ∧
    sysPowerW ⟨15, 3 / 2⟩ 50 (2 * 1024 * 1024 * 1024) = 21 / 2 := by
  refine ⟨?_, ?_, fun cfg c m => rfl, by norm_num [procEstW, max_def],
    by norm_num [sysPowerW, max_def, min_def]⟩
  · intro cfg c m h0 h100 hm
    unfold procEstW wattsSpec
    rw [max_eq_right h0, min_eq_right h100, max_eq_right hm]
  · intro cfg c u hu
    unfold sysPowerW wattsSpec
    have hmem : max 0 (u / (1024 * 1024 * 1024)) = u / (1024 * 1024 * 1024) :=
      max_eq_right (by positivity)
    rw [hmem]
    have hclamp : max 0 (min 100 c) = min 100 (max 0 c) := by
      rcases le_total c 0 with h | h
      · rw [min_eq_right (le_trans h (by norm_num)), max_eq_left h,
          min_eq_right (by norm_num : (0 : ℚ) ≤ 100)]
      · rw [max_eq_right h, max_eq_right (le_min (by norm_num) h)]
    rw [hclamp]

theorem c2_witness :
    procEstW ⟨15, 3 / 2⟩ 50 2 = wattsSpec ⟨15, 3 / 2⟩ 50 2 ∧
    sysPowerW ⟨15, 3 / 2⟩ 40 (2 * 1024 * 1024 * 1024) =
      wattsSpec ⟨15, 3 / 2⟩ 40 ((2 * 1024 * 1024 * 1024 : ℚ) / (1024 * 1024 * 1024)) :=
  ⟨c2_watts_model.1 ⟨15, 3 / 2⟩ 50 2 (by norm_num) (by norm_num) (by norm_num),
   c2_watts_model.2.1 ⟨15, 3 / 2⟩ 40 (2 * 1024 * 1024 * 1024) (by norm_num)⟩

/-- C1: per-row CPU-rate arithmetic of `sampleProcesses`, and the spec's
end-to-end vector: pid 42 at 1.0 cumulative CPU-seconds seeded, 1.5 at the
next tick, `dt = 1 s`, one logical core — the instantaneous rate is 50%. -/
theorem c1_cpu_rate_formula :
    (∀ (cfg : PowerCfg) (st : SamplerState) (cores : Nat) (raw : List RawProc) (now : ℚ)
       (i : Nat) (h : i < raw.length),
      ((sampleProcesses cfg st cores raw now).1.map Row.cpuSec).getD i 0 =
        ((raw.get ⟨i, h⟩).KernelModeTime.getD 0 + (raw.get ⟨i, h⟩).UserModeTime.getD 0) /
          10000000 ∧
      ((sampleProcesses cfg st cores raw now).1.map Row.cpuPct).getD i 0 =
        max 0
            (((raw.get ⟨i, h⟩).KernelModeTime.getD 0 + (raw.get ⟨i, h⟩).UserModeTime.getD 0) /
                10000000 -
              (histFind st.prevCpuMap ((raw.get ⟨i, h⟩).ProcessId.getD 0)).getD 0) /
          max ((now - st.prevSampleTime) / 1000) (1 / 1000) / ((max 1 cores : Nat) : ℚ) * 100) ∧
    ((sampleProcesses ⟨15, 3 / 2⟩
        ⟨seedHistory [⟨some 42, none, none, some 10000000, some 0, none⟩], 0⟩ 1
        [⟨some 42, none, none, some 15000000, some 0, none⟩] 1000).1.map Row.cpuPct) = [50] := by
  constructor
  · intro cfg st cores raw now i h
    have hl1 : i < ((sampleProcesses cfg st cores raw now).1.map Row.cpuSec).length := by
      simpa [sampleProcesses] using h
    have hl2 : i < ((sampleProcesses cfg st cores raw now).1.map Row.cpuPct).length := by
      simpa [sampleProcesses] using h
    rw [List.getD_eq_getElem _ _ hl1, List.getD_eq_getElem _ _ hl2]
    simp [sampleProcesses, mkRow, List.getElem_map, List.get_eq_getElem]
  · norm_num [sampleProcesses, mkRow, seedHistory, histSet, histFind, procEstW,
      max_def, min_def]

theorem c1_witness :
    ((sampleProcesses ⟨15, 3 / 2⟩ ⟨[], 0⟩ 2
        [⟨some 9, none, none, some 20000000, some 20000000, none⟩] 2000).1.map
      Row.cpuPct).getD 0 0 =
      max 0
          ((((⟨some 9, none, none, some 20000000, some 20000000, none⟩ : RawProc).KernelModeTime.getD 0 +
                (⟨some 9, none, none, some 20000000, some 20000000, none⟩ : RawProc).UserModeTime.getD 0) /
              10000000) -
            (histFind (⟨[], 0⟩ : SamplerState).prevCpuMap
                ((⟨some 9, none, none, some 20000000, some 20000000, none⟩ : RawProc).ProcessId.getD 0)).getD 0) /
        max (((2000 : ℚ) - (⟨[], 0⟩ : SamplerState).prevSampleTime) / 1000) (1 / 1000) /
        ((max 1 2 : Nat) : ℚ) * 100 :=
  ((c1_cpu_rate_formula.1 ⟨15, 3 / 2⟩ ⟨[], 0⟩ 2
    [⟨some 9, none, none, some 20000000, some 20000000, none⟩] 2000 0 (by decide)).2)

theorem histFind_mapSet (t : List (ℚ × ℚ)) (k v q : ℚ) :
    histFind (t.map (fun e => if e.1 = k then (k, v) else e)) q =
      if q = k then (if (histFind t k).isSome then some v else none) else histFind t q := by
  induction t with
  | nil =>
    by_cases hq : q = k
    · simp [histFind, hq]
    · simp [histFind, hq, Ne.symm hq]
  | cons e t ih =>
    by_cases he : e.1 = k
    · by_cases hq : q = k
      · subst hq
        simp [histFind, he, ih]
      · have hkq : ¬k = q := fun hh => hq hh.symm
        have hek : ¬e.1 = q := by rw [he]; exact hkq
        simp [histFind, he, hq, hkq, hek, ih]
    · by_cases hq : q = k
      · subst hq
        simp [histFind, he, ih]
      · simp [histFind, he, hq, ih]

theorem histFind_append_single (m : List (ℚ × ℚ)) (k v q : ℚ) :
    histFind (m ++ [(k, v)]) q =
      match histFind m q with
      | some w => some w
      | none => if q = k then some v else none := by
  induction m with
  | nil =>
    by_cases hq : q = k
    · simp [histFind, hq]
    · simp [histFind, hq, Ne.symm hq]
  | cons e t ih =>
    by_cases heq : e.1 = q <;> simp [histFind, heq, ih]

theorem histFind_histSet (m : List (ℚ × ℚ)) (k v q : ℚ) :
    histFind (histSet m k v) q = if q = k then some v else histFind m q := by
  unfold histSet
  by_cases hk : (histFind m k).isSome
  · rw [if_pos hk, histFind_mapSet, if_pos hk]
  · rw [if_neg hk, histFind_append_single]
    cases hfq : histFind m q with
    | some w =>
      have hqk : ¬q = k := by
        intro hq
        subst hq
        rw [hfq] at hk
        exact hk rfl
      simp [hqk]
    | none => rfl

theorem histFind_foldl (l : List Row) :
    ∀ (m : List (ℚ × ℚ)) (q : ℚ),
      histFind (l.foldl (fun acc r => histSet acc r.pid r.cpuSec) m) q =
        match lookupLast l q with
        | some v => some v
        | none => histFind m q := by
  induction l with
  | nil => intro m q; simp [lookupLast]
  | cons r t ih =>
    intro m q
    show histFind (t.foldl _ (histSet m r.pid r.cpuSec)) q = _
    rw [ih]
    cases hl : lookupLast t q with
    | some v => simp [lookupLast, hl]
    | none =>
      simp only [lookupLast, hl]
      rw [histFind_histSet]
      by_cases hq : q = r.pid
      · rw [if_pos hq, if_pos hq.symm]
      · rw [if_neg hq, if_neg (fun hh => hq hh.symm)]

theorem lookupLast_isSome (l : List Row) (q : ℚ) :
    (lookupLast l q).isSome = true ↔ q ∈ l.map Row.pid := by
  induction l with
  | nil => simp [lookupLast]
  | cons r t ih =>
    simp only [lookupLast, List.map_cons, List.mem_cons]
    cases hl : lookupLast t q with
    | some v =>
      rw [hl] at ih
      simp only [Option.isSome_some, true_iff] at ih
      exact iff_of_true rfl (Or.inr ih)
    | none =>
      rw [hl] at ih
      simp only [Option.isSome_none, Bool.false_eq_true, false_iff] at ih
      by_cases hq : r.pid = q
      · simp [hq]
      · simp [hq, ih, Ne.symm hq]

theorem lookupLast_nodup (l : List Row) (hnd : (l.map Row.pid).Nodup) (r : Row) (hr : r ∈ l) :
    lookupLast l r.pid = some r.cpuSec := by
  induction l with
  | nil => cases hr
  | cons a t ih =>
    rw [List.map_cons, List.nodup_cons] at hnd
    rcases List.mem_cons.mp hr with rfl | hrt
    · have hnone : lookupLast t r.pid = none := by
        cases h : lookupLast t r.pid with
        | none => rfl
        | some v =>
          exact absurd ((lookupLast_isSome t r.pid).mp (by rw [h]; rfl)) hnd.1
      simp [lookupLast, hnone]
    · have := ih hnd.2 hrt
      simp [lookupLast, this]

/-- C3: after a tick, the rebuilt CPU history contains an entry exactly for
the pids of the current raw sample (stale pids are gone), and — the pids
being unique — each entry holds that pid's current cumulative CPU seconds. -/
theorem c3_history_exact :
    ∀ (cfg : PowerCfg) (st : SamplerState) (cores : Nat) (raw : List RawProc) (now : ℚ),
      ((sampleProcesses cfg st cores raw now).1.map Row.pid =
        raw.map (fun p => p.ProcessId.getD 0)) ∧
      (∀ q : ℚ,
        (histFind (sampleProcesses cfg st cores raw now).2.prevCpuMap q).isSome = true ↔
          q ∈ raw.map (fun p => p.ProcessId.getD 0)) ∧
      ((raw.map (fun p => p.ProcessId.getD 0)).Nodup →
        ∀ r ∈ (sampleProcesses cfg st cores raw now).1,
          histFind (sampleProcesses cfg st cores raw now).2.prevCpuMap r.pid = some r.cpuSec) := by
  intro cfg st cores raw now
  have hpids : (sampleProcesses cfg st cores raw now).1.map Row.pid =
      raw.map (fun p => p.ProcessId.getD 0) := by
    simp only [sampleProcesses, List.map_map]
    exact List.map_congr_left fun a _ => rfl
  refine ⟨hpids, ?_, ?_⟩
  · intro q
    show (histFind ((sampleProcesses cfg st cores raw now).1.foldl
        (fun m r => histSet m r.pid r.cpuSec) []) q).isSome = true ↔ _
    rw [histFind_foldl]
    cases hl : lookupLast (sampleProcesses cfg st cores raw now).1 q with
    | some v =>
      refine iff_of_true rfl ?_
      rw [← hpids]
      exact (lookupLast_isSome _ q).mp (by rw [hl]; rfl)
    | none =>
      show (histFind [] q).isSome = true ↔ _
      rw [← hpids]
      simp only [histFind, Option.isSome_none, Bool.false_eq_true, false_iff]
      intro hmem
      have := (lookupLast_isSome _ q).mpr hmem
      rw [hl] at this
      exact absurd this (by simp)
  · intro hnd r hr
    show histFind ((sampleProcesses cfg st cores raw now).1.foldl
        (fun m r => histSet m r.pid r.cpuSec) []) r.pid = some r.cpuSec
    rw [histFind_foldl, lookupLast_nodup _ (hpids ▸ hnd) r hr]

theorem c3_witness :
    histFind
      ((sampleProcesses ⟨15, 3 / 2⟩ ⟨[], 0⟩ 1
          [⟨some 42, none, none, some 15000000, some 0, none⟩] 1000).2.prevCpuMap)
      ((⟨42, "", "", 3 / 2, 150, 0, 45 / 2⟩ : Row).pid) =
    some ((⟨42, "", "", 3 / 2, 150, 0, 45 / 2⟩ : Row).cpuSec) :=
  (c3_history_exact ⟨15, 3 / 2⟩ ⟨[], 0⟩ 1
      [⟨some 42, none, none, some 15000000, some 0, none⟩] 1000).2.2
    (by norm_num)
    _
    (by norm_num [sampleProcesses, mkRow, histFind, procEstW, jsTrim, max_def, min_def])

/-- C8: whatever the four awaited sources deliver, the `finally` block
schedules the next tick after the current interval — a failing source
produces a logged error and no frame, never a missing reschedule — and a
failed or empty process query yields the empty process list. -/
theorem c8_tick_error_containment :
    (∀ (intervalMs : Nat) (clock cpuModel : String) (cores : Nat) (cfg : PowerCfg)
       (vs : ViewState) (widthIn : Nat) (sys : Except String SystemSnap)
       (procs : Except String (List Row)) (batt : Except String (Option Battery))
       (scheme : Except String String),
      (tickStep intervalMs clock cpuModel cores cfg vs widthIn sys procs batt
        scheme).nextDelayMs = intervalMs) ∧
    (∀ (intervalMs : Nat) (clock cpuModel : String) (cores : Nat) (cfg : PowerCfg)
       (vs : ViewState) (widthIn : Nat) (sys : Except String SystemSnap)
       (procs : Except String (List Row)) (batt : Except String (Option Battery))
       (scheme : Except String String),
      ((∃ e, sys = .error e) ∨ (∃ e, procs = .error e) ∨ (∃ e, batt = .error e) ∨
        (∃ e, scheme = .error e)) →
      (tickStep intervalMs clock cpuModel cores cfg vs widthIn sys procs batt
          scheme).frame = none ∧
      ((tickStep intervalMs clock cpuModel cores cfg vs widthIn sys procs batt
          scheme).logged).isSome = true) ∧
    sampleProcessesRaw none = [] ∧
    (∀ (cfg : PowerCfg) (st : SamplerState) (cores : Nat) (now : ℚ),
      (sampleProcesses cfg st cores (sampleProcessesRaw none) now).1 = []) := by
  refine ⟨?_, ?_, rfl, fun cfg st cores now => rfl⟩
  · intro intervalMs clock cpuModel cores cfg vs widthIn sys procs batt scheme
    cases sys <;> cases procs <;> cases batt <;> cases scheme <;> rfl
  · intro intervalMs clock cpuModel cores cfg vs widthIn sys procs batt scheme h
    rcases h with ⟨e, rfl⟩ | ⟨e, rfl⟩ | ⟨e, rfl⟩ | ⟨e, rfl⟩
    · exact ⟨rfl, rfl⟩
    · cases sys <;> exact ⟨rfl, rfl⟩
    · cases sys <;> cases procs <;> exact ⟨rfl, rfl⟩
    · cases sys <;> cases procs <;> cases batt <;> exact ⟨rfl, rfl⟩

theorem c8_witness :
    (tickStep 700 "t" "cpu" 1 ⟨15, 3 / 2⟩ ⟨.cpu, true, "", 20⟩ 100
        (.ok ⟨0, 0, 0, 0, "N/A", 0, 0, 0⟩) (.error "query failed") (.ok none)
        (.ok "Balanced")).frame = none ∧
    ((tickStep 700 "t" "cpu" 1 ⟨15, 3 / 2⟩ ⟨.cpu, true, "", 20⟩ 100
        (.ok ⟨0, 0, 0, 0, "N/A", 0, 0, 0⟩) (.error "query failed") (.ok none)
        (.ok "Balanced")).logged).isSome = true :=
  c8_tick_error_containment.2.1 700 "t" "cpu" 1 ⟨15, 3 / 2⟩ ⟨.cpu, true, "", 20⟩ 100
    (.ok ⟨0, 0, 0, 0, "N/A", 0, 0, 0⟩) (.error "query failed") (.ok none) (.ok "Balanced")
    (Or.inr (Or.inl ⟨"query failed", rfl⟩))

/-- C9 counterexample: two renders with identical snapshot, process list,
battery, power scheme, view state and terminal width but different wall
clocks differ — the frame embeds `timestamp()`, so the Renderer is not a
function of the claimed inputs alone. -/
theorem c9_counterexample :
    render "10:00:00" "TestCPU" 1 ⟨15, 3 / 2⟩ ⟨.cpu, true, "", 20⟩ 120
        ⟨0, 0, 0, 0, "N/A", 0, 0, 0⟩ [] none "Balanced" ≠
      render "10:00:01" "TestCPU" 1 ⟨15, 3 / 2⟩ ⟨.cpu, true, "", 20⟩ 120
        ⟨0, 0, 0, 0, "N/A", 0, 0, 0⟩ [] none "Balanced" := by
  intro h
  have hd := congrArg String.data h
  simp only [render, String.data_append, List.append_assoc,
    List.append_cancel_left_eq] at hd
  exact absurd (List.append_cancel_right hd) (by decide)

/-- C9 amended: the Renderer is a deterministic pure function of its inputs
*plus the current clock reading*: render twice with identical inputs,
width and clock and the frames are byte-identical. -/
theorem c9_render_deterministic :
    ∀ (clock clock' cpuModel : String) (cores : Nat) (cfg : PowerCfg) (vs : ViewState)
      (widthIn : Nat) (system : SystemSnap) (processes : List Row)
      (battery : Option Battery) (powerScheme : String),
      clock = clock' →
      render clock cpuModel cores cfg vs widthIn system processes battery powerScheme =
        render clock' cpuModel cores cfg vs widthIn system processes battery powerScheme := by
  intro clock clock' cpuModel cores cfg vs widthIn system processes battery powerScheme h
  rw [h]

theorem c9_witness :
    render "12:34:56" "SomeCPU" 8 ⟨15, 3 / 2⟩ ⟨.mem, false, "x", 5⟩ 80
        ⟨50, 100, 40, 7, "1d 2h 3m", 12, 7, 5⟩ [] (some ⟨some 90, "AC/Online"⟩) "Balanced" =
      render "12:34:56" "SomeCPU" 8 ⟨15, 3 / 2⟩ ⟨.mem, false, "x", 5⟩ 80
        ⟨50, 100, 40, 7, "1d 2h 3m", 12, 7, 5⟩ [] (some ⟨some 90, "AC/Online"⟩) "Balanced" :=
  c9_render_deterministic "12:34:56" "12:34:56" "SomeCPU" 8 ⟨15, 3 / 2⟩ ⟨.mem, false, "x", 5⟩
    80 ⟨50, 100, 40, 7, "1d 2h 3m", 12, 7, 5⟩ [] (some ⟨some 90, "AC/Online"⟩) "Balanced" rfl

/-- C7: every produced `instantCpuPercent` is nonnegative — the delta is
clamped below at 0 and is divided by a positive `dt` and a positive core
count (the non-finite coercion of the source is the identity over exact
rationals). -/
theorem c7_cpu_percent_nonneg :
    ∀ (cfg : PowerCfg) (st : SamplerState) (cores : Nat) (raw : List RawProc) (now : ℚ)
      (r : Row), r ∈ (sampleProcesses cfg st cores raw now).1 → 0 ≤ r.cpuPct := by
  intro cfg st cores raw now r hr
  simp only [sampleProcesses, List.mem_map] at hr
  obtain ⟨p, _, rfl⟩ := hr
  show 0 ≤ max 0 _ / max ((now - st.prevSampleTime) / 1000) (1 / 1000) / (max 1 cores : Nat) * 100
  have hdt : (0 : ℚ) < max ((now - st.prevSampleTime) / 1000) (1 / 1000) :=
    lt_of_lt_of_le (by norm_num) (le_max_right _ _)
  have hcores : (0 : ℚ) < (max 1 cores : Nat) := by
    have : 0 < max 1 cores := lt_of_lt_of_le one_pos (le_max_left _ _)
    exact_mod_cast this
  exact mul_nonneg (div_nonneg (div_nonneg (le_max_left _ _) hdt.le) hcores.le) (by norm_num)

theorem c7_witness :
    (0 : ℚ) ≤ Row.cpuPct
      { pid := 42, name := "", cmd := "", cpuSec := 3 / 2, cpuPct := 50,
        memBytes := 0, estW := 15 / 2 } :=
  c7_cpu_percent_nonneg ⟨15, 3 / 2⟩
    ⟨seedHistory [⟨some 42, none, none, some 10000000, some 0, none⟩], 0⟩ 1
    [⟨some 42, none, none, some 15000000, some 0, none⟩] 1000 _
    (by norm_num [sampleProcesses, mkRow, seedHistory, histSet, histFind, procEstW,
      jsTrim, max_def, min_def])
